import Mathlib

/-!
Verification development for the AutoShift-api shift-scheduling core
(src/database/core.py).  The CP-SAT model built by `my_scheduler` and
`solve_shift_scheduling_from_data` is shallowly embedded: a candidate
solver assignment of the boolean grid `work[e, s, d]` is a function
`WorkAssign`, each family of posted constraints becomes a predicate over
such assignments (plus the auxiliary integer variables the code
introduces), and the post-solve reconstruction of the schedule becomes a
pure function on assignments.  The solver itself is treated as a black
box producing a status and an assignment; soundness of that black box
(a success status comes with an assignment satisfying the posted
constraints) is an explicit hypothesis where needed.
-/

namespace AutoShift

/-- Candidate valuation of the decision grid: `W e s d` is the value of the
boolean variable `work[e, s, d]` (employee, shift-type, day). -/
abbrev WorkAssign := Nat → Nat → Nat → Bool

/-- Number of employees among `0..nE-1` assigned shift `s` on day `d`:
the value of `sum(work[e, s, d] for e in range(num_employees))`. -/
def countWorked (W : WorkAssign) (nE s d : Nat) : Nat :=
  ((List.range nE).filter (fun e => W e s d)).length

/-- Constraint posted by `model.add_exactly_one(work[e, s, d] for s in
range(num_shifts))` (core.py lines 435-438 and 657-660): exactly one
shift-type variable of the cell `(e, d)` is true. -/
def exactlyOneCons (W : WorkAssign) (nS e d : Nat) : Prop :=
  ((List.range nS).filter (fun s => W e s d)).length = 1

instance (W : WorkAssign) (nS e d : Nat) : Decidable (exactlyOneCons W nS e d) := by
  unfold exactlyOneCons; infer_instance

/-- Post-solve reconstruction of one cell (core.py lines 757-761): scan
`s = 0, 1, ...` and return the first shift with `work[e, s, d]` true
(the inner loop with `break`). -/
def reconstructCell (W : WorkAssign) (nS e d : Nat) : Option Nat :=
  (List.range nS).find? (fun s => W e s d)

/-- Post-solve reconstruction of the whole schedule `result_schedule`
(core.py lines 755-761): for every employee, the list of days paired with
the first true shift of that day (days with no true shift are absent). -/
def buildSchedule (nE nS nDays : Nat) (W : WorkAssign) : List (Nat × List (Nat × Nat)) :=
  (List.range nE).map (fun e =>
    (e, (List.range nDays).filterMap (fun d =>
      (reconstructCell W nS e d).map (fun s => (d, s)))))

/-- Solver termination status, mirroring the `cp_model` status constants
consumed by the code (`OPTIMAL`, `FEASIBLE`, `INFEASIBLE`, `MODEL_INVALID`,
`UNKNOWN`). -/
inductive CpStatus where
  | optimal
  | feasible
  | infeasible
  | modelInvalid
  | unknown
deriving DecidableEq, Repr

/-- Black-box outcome of `solver.Solve(model)`: a status together with the
valuation the solver reports for the decision grid. -/
structure SolveOutcome where
  status : CpStatus
  W : WorkAssign

/-- Return-value computation of `solve_shift_scheduling_from_data`
(core.py lines 753-763): `result_schedule = {}` and it is filled only
when the status is `OPTIMAL` or `FEASIBLE`; otherwise the empty dict is
returned unchanged. -/
def solveResult (nE nS nDays : Nat) (o : SolveOutcome) : List (Nat × List (Nat × Nat)) :=
  if o.status = CpStatus.optimal ∨ o.status = CpStatus.feasible then
    buildSchedule nE nS nDays o.W
  else []

/-- Soundness of the black-box solver relative to a satisfaction predicate
`Sat` of the posted model: a success status is only reported together with
an assignment satisfying the model. -/
def OracleSound (o : SolveOutcome) (Sat : WorkAssign → Prop) : Prop :=
  (o.status = CpStatus.optimal ∨ o.status = CpStatus.feasible) → Sat o.W

/-- Membership test of the `allowed_work` set built by `my_scheduler`
(core.py lines 450-457): a triple is allowed when some fixed assignment
matches it with `s > 0` and in-range day/employee, or some request matches
it with `s > 0`, negative weight, and in-range day/employee. -/
def allowedWorkMem (fixed : List (Nat × Nat × Nat)) (requests : List (Nat × Nat × Nat × Int))
    (nE nD e s d : Nat) : Bool :=
  fixed.any (fun t =>
    decide (t.1 = e) && decide (t.2.1 = s) && decide (t.2.2 = d)
      && decide (0 < s) && decide (d < nD) && decide (e < nE))
  || requests.any (fun t =>
    decide (t.1 = e) && decide (t.2.1 = s) && decide (t.2.2.1 = d)
      && decide (0 < s) && decide (t.2.2.2 < 0) && decide (d < nD) && decide (e < nE))

/-- Eligibility-masking constraints of `my_scheduler` (core.py lines
458-462): for every in-range cell and every working shift `s ≥ 1` not in
`allowed_work`, the constraint `work[e, s, d] == 0` is posted. -/
def eligibilityCons (fixed : List (Nat × Nat × Nat)) (requests : List (Nat × Nat × Nat × Int))
    (nE nS nD : Nat) (W : WorkAssign) : Prop :=
  ∀ e < nE, ∀ d < nD, ∀ s, 1 ≤ s → s < nS →
    allowedWorkMem fixed requests nE nD e s d = false → W e s d = false

/-- Fixed-assignment constraints of `my_scheduler` (core.py lines 441-442):
`work[e, s, d] == 1` for every listed triple, with no range check.  The
function hardcodes `fixed_assignments = []`. -/
def fixedConsMySched (fixed : List (Nat × Nat × Nat)) (W : WorkAssign) : Prop :=
  ∀ t ∈ fixed, W t.1 t.2.1 t.2.2 = true

/-- Shortage penalty rate hardcoded in `my_scheduler` (core.py line 412). -/
def shortage_penalty : Nat := 10

/-- Soft-coverage constraints of `my_scheduler` (core.py lines 465-478):
for every working shift `1 ≤ s < nS` and day `d`, the integer variable
`shortage[s, d]` has domain `[0, demand]` and
`sum_e work[e, s, d] + shortage == demand`. -/
def coverageConsMySched (W : WorkAssign) (shortage : Nat → Nat → Nat) (nE nS nD : Nat)
    (demand : Nat → Nat → Nat) : Prop :=
  ∀ s, 1 ≤ s → s < nS → ∀ d < nD,
    shortage s d ≤ demand s d ∧ countWorked W nE s d + shortage s d = demand s d

/-- Objective terms contributed by the coverage loop of `my_scheduler`
(core.py lines 475-477): each shortage variable is appended with
coefficient `shortage_penalty` (the `shortage_penalty > 0` test always
succeeds since the rate is the literal 10), in loop order `s` outer,
`d` inner. -/
def coverageObjTerms (shortage : Nat → Nat → Nat) (nS nD : Nat) : List (Nat × Nat) :=
  (List.range' 1 (nS - 1)).flatMap (fun s =>
    (List.range nD).map (fun d => (shortage s d, shortage_penalty)))

/-- Value of a list of (integer variable value, coefficient) objective
terms, as summed in `model.minimize` (core.py lines 502-505). -/
def intTermsSum (terms : List (Nat × Nat)) : Nat :=
  (terms.map (fun t => t.1 * t.2)).sum

/-- Total shortage over all working shifts and days. -/
def totalShortage (shortage : Nat → Nat → Nat) (nS nD : Nat) : Nat :=
  ((List.range' 1 (nS - 1)).map (fun s =>
    ((List.range nD).map (fun d => shortage s d)).sum)).sum

/-- Weekday-demand template hardcoded in `my_scheduler` (core.py lines
399-407): seven rows `Sat..Fri`, each a 1-tuple `(1,)`. -/
def weekday_demand_template : List (List Nat) := [[1], [1], [1], [1], [1], [1], [1]]

/-- Mapping of Python weekday `Mon..Sun = 0..6` to `Sat..Fri = 0..6`
indexing (core.py lines 604-606). -/
def sat_index_from_pyweekday (pyW : Nat) : Nat := (pyW + 2) % 7

/-- Demand lookup of core.py lines 554-565: index the weekday row
`(start_sat_index + d) % 7` of the template at column `s - 1` (embedded
totally, with default 0 where Python would raise an IndexError). -/
def demand_for_day_and_shift (template : List (List Nat)) (startSatIndex d s : Nat) : Nat :=
  (template.getD ((startSatIndex + d) % 7) []).getD (s - 1) 0

/-- Number of days among `0..nDays-1` on which employee `e` is assigned
shift `s`: the value of `sum(work[e, s, d] for d in range(num_days))`
(core.py line 486). -/
def countShift (W : WorkAssign) (s nDays e : Nat) : Nat :=
  ((List.range nDays).filter (fun d => W e s d)).length

/-- Sum of the per-employee totals (core.py lines 587-588). -/
def sumTotalsOf (totals : Nat → Nat) (nE : Nat) : Nat :=
  ((List.range nE).map totals).sum

/-- Full hard-constraint system of the `my_scheduler` model (core.py lines
422-499) over the decision grid and the auxiliary integer variables:
exactly-one per cell, fixed assignments (the hardcoded empty list),
eligibility masking, soft coverage, the fairness totals `t == sum_d
work[e, shift_len-1, d]` with domain `[0, num_days]`, the grand sum with
domain `[0, n * num_days]`, and the `add_fair_share` variables `tmp` and
`dev` (core.py lines 572-602) with their domains and defining equations. -/
def mySchedulerSystem (nE nS nD : Nat) (requests : List (Nat × Nat × Nat × Int))
    (demand : Nat → Nat → Nat) (W : WorkAssign) (shortage : Nat → Nat → Nat)
    (totals : Nat → Nat) (sumTotals : Nat) (tmp : Nat → Int) (dev : Nat → Int) : Prop :=
  (∀ e < nE, ∀ d < nD, exactlyOneCons W nS e d)
  ∧ fixedConsMySched [] W
  ∧ eligibilityCons [] requests nE nS nD W
  ∧ coverageConsMySched W shortage nE nS nD demand
  ∧ (∀ e < nE, totals e ≤ nD ∧ totals e = countShift W (nS - 1) nD e)
  ∧ sumTotals ≤ nE * nD
  ∧ sumTotals = sumTotalsOf totals nE
  ∧ (∀ e < nE,
      -(nE * nD : Int) ≤ tmp e ∧ tmp e ≤ (nE * nD : Int)
      ∧ tmp e = (nE : Int) * (totals e : Int) - (sumTotals : Int)
      ∧ 0 ≤ dev e ∧ dev e ≤ (nE * nD : Int) ∧ dev e = |tmp e|)

/-- Deviation values introduced by `add_fair_share` (core.py lines
593-598): for each employee total `t`, the value `|n * t - sum_totals|`
with `n` the number of employees. -/
def fairShareDevs (totals : List Int) : List Int :=
  totals.map (fun t => |(totals.length : Int) * t - totals.sum|)

/-- Objective coefficients produced by `add_fair_share` (core.py lines
599-600): the uniform fairness cost, one per employee. -/
def fairShareCoeffs (totals : List Int) (fairnessCost : Int) : List Int :=
  totals.map (fun _ => fairnessCost)

/-- Hard transition clause posted when `cost == 0` (core.py lines
714-716): `work[e, prev, d].Not() OR work[e, next, d+1].Not()`. -/
def transitionClauseHard (W : WorkAssign) (e p q d : Nat) : Prop :=
  W e p d = false ∨ W e q (d + 1) = false

/-- Soft transition clause posted when `cost != 0` (core.py lines
717-720): the same clause augmented with the indicator `trans_var`. -/
def transitionClauseSoft (W : WorkAssign) (e p q d : Nat) (tv : Bool) : Prop :=
  W e p d = false ∨ W e q (d + 1) = false ∨ tv = true

/-- Constraint posted by the penalized-transition loop of
`solve_shift_scheduling_from_data` for one employee and day pair
(core.py lines 711-720), branching on `cost == 0` exactly as the code. -/
def transitionCons (cost : Int) (W : WorkAssign) (e p q d : Nat) (tv : Bool) : Prop :=
  if cost = 0 then transitionClauseHard W e p q d else transitionClauseSoft W e p q d tv

/-- Objective terms the transition loop appends (core.py lines 721-722):
nothing when `cost == 0`, otherwise the indicator with coefficient
`cost`. -/
def transitionObjTerms (cost : Int) (tv : Bool) : List (Bool × Int) :=
  if cost = 0 then [] else [(tv, cost)]

/-- Value of a list of (boolean variable value, coefficient) objective
terms, as summed in `model.Minimize` (core.py lines 742-745). -/
def boolTermsSum (terms : List (Bool × Int)) : Int :=
  (terms.map (fun t => if t.1 then t.2 else 0)).sum

/-- Sum of the boolean window `work_vars[i : i + len]` used by
`add_soft_sequence_constraint` (core.py line 617). -/
def windowSum (l : List Bool) (i len : Nat) : Nat :=
  (((l.drop i).take len).filter (fun b => b)).length

/-- Constraint system posted by `add_soft_sequence_constraint` as defined
in core.py lines 609-624: for each window start `i < n - max_length`, a
boolean `violation_i` reified to the window sum exceeding `max_length`,
and the linear constraint `penalty_var >= violation_i * penalty`.  No
other constraints are posted: in particular nothing bounds run lengths
from below, and nothing forbids long runs outright. -/
def softSeqCons (l : List Bool) (maxLength : Nat) (penalty : Int)
    (violation : Nat → Bool) (penaltyVar : Int) : Prop :=
  ∀ i, i < l.length - maxLength →
    ((violation i = false → windowSum l i (maxLength + 1) ≤ maxLength)
     ∧ (violation i = true → maxLength < windowSum l i (maxLength + 1))
     ∧ (if violation i then penalty else 0) ≤ penaltyVar)

instance (l : List Bool) (maxLength : Nat) (penalty : Int) (violation : Nat → Bool)
    (penaltyVar : Int) : Decidable (softSeqCons l maxLength penalty violation penaltyVar) := by
  unfold softSeqCons; infer_instance

/-- Length of the longest contiguous run of `true` in a boolean list
(auxiliary accumulator form). -/
def maxRunAux : List Bool → Nat → Nat → Nat
  | [], cur, best => max cur best
  | b :: rest, cur, best =>
    if b then maxRunAux rest (cur + 1) best else maxRunAux rest 0 (max cur best)

/-- Length of the longest contiguous run of `true` in a boolean list. -/
def maxRun (l : List Bool) : Nat := maxRunAux l 0 0

/-- Number of positional parameters of `add_soft_sequence_constraint` as
defined in core.py line 609: `model, work_vars, max_length, penalty,
penalty_var`. -/
def addSoftSequenceConstraint_paramCount : Nat := 5

/-- Number of positional arguments passed to `add_soft_sequence_constraint`
at its call site in `solve_shift_scheduling_from_data` (core.py lines
677-687): `model, works, hard_min, soft_min, min_cost, soft_max,
hard_max, max_cost` (plus one keyword argument not among the
parameters). -/
def addSoftSequenceConstraint_callArgCount : Nat := 8

/-- Fixed-assignment tuples that actually generate a constraint in
`solve_shift_scheduling_from_data` (core.py lines 663-665): tuples with
any out-of-range index are silently skipped by the guard. -/
def fixedTriplesUsed (nE nS nDays : Nat) (fixed : List (Nat × Nat × Nat)) :
    List (Nat × Nat × Nat) :=
  fixed.filter (fun t => decide (t.1 < nE) && decide (t.2.1 < nS) && decide (t.2.2 < nDays))

/-- Fixed-assignment constraints of `solve_shift_scheduling_from_data`
(core.py lines 663-665): `work == 1` for every in-range tuple. -/
def fixedConsFiltered (nE nS nDays : Nat) (fixed : List (Nat × Nat × Nat))
    (W : WorkAssign) : Prop :=
  ∀ t ∈ fixedTriplesUsed nE nS nDays fixed, W t.1 t.2.1 t.2.2 = true

/-- Request tuples that actually contribute an objective term in
`solve_shift_scheduling_from_data` (core.py lines 668-671): tuples with
any out-of-range index are silently skipped by the guard. -/
def requestTermsUsed (nE nS nDays : Nat) (requests : List (Nat × Nat × Nat × Int)) :
    List (Nat × Nat × Nat × Int) :=
  requests.filter (fun t =>
    decide (t.1 < nE) && decide (t.2.1 < nS) && decide (t.2.2.1 < nDays))

/-- Cover constraints of `solve_shift_scheduling_from_data` (core.py lines
725-733): for every shift `s < nS`, week `w`, weekday `d`, with
`demand_val = weekly_cover_demands[d].get(s, 0)` nonzero, the integer
variable `worked` has domain `[demand_val, num_employees]` and equals
`sum_e work[e, s, w*7 + d]`.  Cells with `demand_val == 0` generate
nothing. -/
def weeklyCoverCons (nE nWeeks nS : Nat) (demands : Nat → Nat → Nat)
    (W : WorkAssign) (worked : Nat → Nat → Nat → Nat) : Prop :=
  ∀ s < nS, ∀ w < nWeeks, ∀ d < 7, demands d s ≠ 0 →
    (demands d s ≤ worked s w d ∧ worked s w d ≤ nE
     ∧ worked s w d = countWorked W nE s (w * 7 + d))

/-- Shape of a Python return value of the scheduling entry points: either
a plain string (the solver statistics text) or a dict mapping employee id
to a per-date shift-name mapping, the shape promised by the docstring of
`my_scheduler` (core.py lines 373-383). -/
inductive PyReturn where
  | statsText (s : String)
  | scheduleDict (m : List (Nat × List (String × String)))
deriving DecidableEq, Repr

/-- Return value of `my_scheduler` (core.py line 552): unconditionally
`solver.response_stats()`, a statistics string, for every solve status. -/
def my_scheduler_return (responseStats : String) : PyReturn :=
  PyReturn.statsText responseStats

/-- Return value of `run_scheduler_for_company` (core.py lines 351-360):
the value returned by `my_scheduler`, passed through unchanged. -/
def run_scheduler_for_company (responseStats : String) : PyReturn :=
  my_scheduler_return responseStats

/-- Characterization of the exactly-one constraint: the cell has a unique
true shift among `0..nS-1`. -/
theorem exactlyOne_unique {W : WorkAssign} {nS e d : Nat} (h : exactlyOneCons W nS e d) :
    ∃ s, s < nS ∧ W e s d = true ∧ ∀ s', s' < nS → W e s' d = true → s' = s := by
  unfold exactlyOneCons at h
  obtain ⟨a, ha⟩ := List.length_eq_one.mp h
  have hmem : a ∈ (List.range nS).filter (fun s => W e s d) := by
    rw [ha]; exact List.mem_singleton_self a
  rw [List.mem_filter, List.mem_range] at hmem
  refine ⟨a, hmem.1, hmem.2, ?_⟩
  intro s' hs' hw
  have hmem' : s' ∈ (List.range nS).filter (fun s => W e s d) := by
    rw [List.mem_filter, List.mem_range]; exact ⟨hs', hw⟩
  rw [ha] at hmem'
  simpa using hmem'

/-- First-true-shift scan: when the cell has a unique true shift, the scan
returns exactly it. -/
theorem reconstructCell_eq {W : WorkAssign} {nS e d s : Nat}
    (hs : s < nS) (hw : W e s d = true)
    (huniq : ∀ s', s' < nS → W e s' d = true → s' = s) :
    reconstructCell W nS e d = some s := by
  unfold reconstructCell
  have hsome : ((List.range nS).find? (fun s => W e s d)).isSome := by
    rw [List.find?_isSome]
    exact ⟨s, List.mem_range.mpr hs, hw⟩
  obtain ⟨b, hb⟩ := Option.isSome_iff_exists.mp hsome
  have hpb : W e b d = true := by
    have hfind := List.find?_some (p := fun s => W e s d) hb
    simpa using hfind
  have hbmem : b ∈ List.range nS := List.mem_of_find?_eq_some hb
  rw [hb]
  exact congrArg some (huniq b (List.mem_range.mp hbmem) hpb)

/-- C1: for every solved schedule, every employee has exactly one assigned
shift-type on every day of the horizon: under the exactly-one constraints
posted by the model, every cell `(e, d)` has a unique true shift `s`, and
the reconstructed output (`result_schedule`) maps `(e, d)` to that single
shift-type. -/
theorem c1_exactly_one_shift_per_cell (nE nS nDays : Nat) (W : WorkAssign)
    (h : ∀ e < nE, ∀ d < nDays, exactlyOneCons W nS e d) :
    ∀ e < nE, ∀ d < nDays, ∃ s, s < nS ∧ W e s d = true
      ∧ (∀ s', s' < nS → W e s' d = true → s' = s)
      ∧ reconstructCell W nS e d = some s
      ∧ ∃ dl, (e, dl) ∈ buildSchedule nE nS nDays W ∧ (d, s) ∈ dl := by
  intro e he d hd
  obtain ⟨s, hs, hw, huniq⟩ := exactlyOne_unique (h e he d hd)
  have hrec := reconstructCell_eq hs hw huniq
  refine ⟨s, hs, hw, huniq, hrec, ?_⟩
  refine ⟨(List.range nDays).filterMap (fun d0 =>
    (reconstructCell W nS e d0).map (fun s0 => (d0, s0))), ?_, ?_⟩
  · exact List.mem_map.mpr ⟨e, List.mem_range.mpr he, rfl⟩
  · rw [List.mem_filterMap]
    exact ⟨d, List.mem_range.mpr hd, by rw [hrec]; rfl⟩

/-- Concrete assignment putting every employee on shift 1 every day. -/
def oneShiftAssign : WorkAssign := fun _ s _ => decide (s = 1)

/-- Witness for C1 at a concrete solved grid: one employee, two
shift-types, one day, everyone assigned shift 1. -/
theorem c1_witness :
    (∀ e < 1, ∀ d < 1, exactlyOneCons oneShiftAssign 2 e d)
    ∧ (∃ s, s < 2 ∧ oneShiftAssign 0 s 0 = true
        ∧ (∀ s', s' < 2 → oneShiftAssign 0 s' 0 = true → s' = s)
        ∧ reconstructCell oneShiftAssign 2 0 0 = some s
        ∧ ∃ dl, (0, dl) ∈ buildSchedule 1 2 1 oneShiftAssign ∧ (0, s) ∈ dl) :=
  ⟨by decide, c1_exactly_one_shift_per_cell 1 2 1 oneShiftAssign (by decide)
    0 (by decide) 0 (by decide)⟩

/-- Allowed-work membership fails when the triple is neither fixed nor
requested with negative weight. -/
theorem allowedWorkMem_eq_false {fixed : List (Nat × Nat × Nat)}
    {requests : List (Nat × Nat × Nat × Int)} {nE nD e s d : Nat}
    (hfix : (e, s, d) ∉ fixed)
    (hreq : ∀ w : Int, (e, s, d, w) ∈ requests → 0 ≤ w) :
    allowedWorkMem fixed requests nE nD e s d = false := by
  unfold allowedWorkMem
  rw [Bool.or_eq_false_iff]
  constructor
  · rw [List.any_eq_false]
    rintro ⟨t1, t2, t3⟩ ht
    simp only [Bool.and_eq_true, decide_eq_true_eq, not_and]
    rintro ⟨⟨⟨⟨h1, h2⟩, h3⟩, -⟩, -⟩ -
    subst h1; subst h2; subst h3
    exact absurd ht hfix
  · rw [List.any_eq_false]
    rintro ⟨t1, t2, t3, t4⟩ ht
    simp only [Bool.and_eq_true, decide_eq_true_eq, not_and]
    rintro ⟨⟨⟨⟨⟨h1, h2⟩, h3⟩, -⟩, h4⟩, -⟩ -
    subst h1; subst h2; subst h3
    exact absurd (hreq t4 ht) (not_le.mpr h4)

/-- C3: eligibility masking.  For every in-range employee, day, and
working shift-type `s ≥ 1`, if `(e, s, d)` was never fixed and never
requested with negative weight, then any assignment satisfying the posted
masking constraints has `work[e, s, d] = 0`, and the reconstructed
schedule never assigns `s` to `(e, d)`. -/
theorem c3_eligibility_masking (fixed : List (Nat × Nat × Nat))
    (requests : List (Nat × Nat × Nat × Int)) (nE nS nD : Nat) (W : WorkAssign)
    (e s d : Nat)
    (hW : eligibilityCons fixed requests nE nS nD W)
    (he : e < nE) (hd : d < nD) (hs1 : 1 ≤ s) (hs2 : s < nS)
    (hfix : (e, s, d) ∉ fixed)
    (hreq : ∀ w : Int, (e, s, d, w) ∈ requests → 0 ≤ w) :
    W e s d = false ∧ reconstructCell W nS e d ≠ some s := by
  have hzero : W e s d = false :=
    hW e he d hd s hs1 hs2 (allowedWorkMem_eq_false hfix hreq)
  refine ⟨hzero, ?_⟩
  intro hrec
  have htrue : W e s d = true := by
    have hfind := List.find?_some (p := fun s0 => W e s0 d) hrec
    simpa using hfind
  rw [hzero] at htrue
  exact Bool.false_ne_true htrue

/-- Concrete assignment that is everywhere false. -/
def allFalseAssign : WorkAssign := fun _ _ _ => false

/-- Witness for C3: one employee, three shift-types, one day, shift 1
requested with negative weight; shift 2 is neither fixed nor desired, so
it is masked off and never reconstructed. -/
theorem c3_witness :
    eligibilityCons [] [(0, 1, 0, (-2 : Int))] 1 3 1 allFalseAssign
    ∧ (allFalseAssign 0 2 0 = false
        ∧ reconstructCell allFalseAssign 3 0 0 ≠ some 2) := by
  have hElig : eligibilityCons [] [(0, 1, 0, (-2 : Int))] 1 3 1 allFalseAssign := by
    intro e _ d _ s _ _ _
    rfl
  refine ⟨hElig, ?_⟩
  exact c3_eligibility_masking [] [(0, 1, 0, (-2 : Int))] 1 3 1 allFalseAssign
    0 2 0 hElig (by decide) (by decide) (by decide) (by decide)
    (by intro h; simp at h)
    (by intro w hw; simp at hw)

/-- Objective value of a constant-coefficient block of integer terms. -/
theorem intTermsSum_map_const (c : Nat) (v : Nat → Nat) (D : List Nat) :
    intTermsSum (D.map (fun d => (v d, c))) = c * (D.map v).sum := by
  induction D with
  | nil => simp [intTermsSum]
  | cons d D ih =>
    simp only [List.map_cons, intTermsSum, List.sum_cons] at ih ⊢
    rw [ih]
    ring

/-- Objective value distributes over concatenation of term lists. -/
theorem intTermsSum_append (a b : List (Nat × Nat)) :
    intTermsSum (a ++ b) = intTermsSum a + intTermsSum b := by
  simp [intTermsSum]

/-- Objective value of nested constant-coefficient blocks. -/
theorem intTermsSum_flatMap_const (c : Nat) (v : Nat → Nat → Nat) (S D : List Nat) :
    intTermsSum (S.flatMap (fun s => D.map (fun d => (v s d, c))))
      = c * (S.map (fun s => (D.map (fun d => v s d)).sum)).sum := by
  induction S with
  | nil => simp [intTermsSum]
  | cons s S ih =>
    rw [List.flatMap_cons, intTermsSum_append, ih, intTermsSum_map_const]
    simp only [List.map_cons, List.sum_cons]
    ring

/-- Concrete assignment putting every employee on the off shift (index 0)
every day. -/
def offOnlyAssign : WorkAssign := fun _ s _ => decide (s = 0)

/-- Filtering a range for the element 0 yields exactly the singleton. -/
theorem filter_zero_range (m : Nat) :
    (List.range (m + 1)).filter (fun s => decide (s = 0)) = [0] := by
  induction m with
  | zero => rfl
  | succ k ih =>
    rw [List.range_succ, List.filter_append, ih]
    simp

/-- The all-off assignment satisfies the exactly-one constraints. -/
theorem offOnly_exactlyOne (m e d : Nat) :
    exactlyOneCons offOnlyAssign (m + 1) e d := by
  have h : (List.range (m + 1)).filter (fun s => offOnlyAssign e s d)
      = (List.range (m + 1)).filter (fun s => decide (s = 0)) := rfl
  unfold exactlyOneCons
  rw [h, filter_zero_range]
  rfl

/-- The all-off assignment puts nobody on any working shift. -/
theorem offOnly_countWorked (nE s d : Nat) (hs : 1 ≤ s) :
    countWorked offOnlyAssign nE s d = 0 := by
  have h : (List.range nE).filter (fun e => offOnlyAssign e s d) = [] := by
    apply List.filter_eq_nil_iff.mpr
    intro a _
    show ¬ (decide (s = 0) = true)
    simp
    omega
  unfold countWorked
  rw [h]
  rfl

/-- Day total of the fairness shift under the all-off assignment. -/
theorem offOnly_countShift (nS nD e : Nat) :
    countShift offOnlyAssign (nS - 1) nD e = if nS - 1 = 0 then nD else 0 := by
  unfold countShift
  by_cases h : nS - 1 = 0
  · rw [if_pos h]
    have heq : (List.range nD).filter (fun d => offOnlyAssign e (nS - 1) d)
        = List.range nD := by
      apply List.filter_eq_self.mpr
      intro a _
      show decide (nS - 1 = 0) = true
      simp [h]
    rw [heq, List.length_range]
  · rw [if_neg h]
    have heq : (List.range nD).filter (fun d => offOnlyAssign e (nS - 1) d) = [] := by
      apply List.filter_eq_nil_iff.mpr
      intro a _
      show ¬ (decide (nS - 1 = 0) = true)
      simp [h]
    rw [heq]
    rfl

/-- Sum of a constant per-employee total. -/
theorem sumTotalsOf_const (c nE : Nat) : sumTotalsOf (fun _ => c) nE = nE * c := by
  unfold sumTotalsOf
  induction nE with
  | zero => simp
  | succ k ih =>
    rw [List.range_succ, List.map_append, List.sum_append, ih]
    simp
    ring

/-- The full `my_scheduler` constraint system is satisfiable for every
demand function (in particular when demand exceeds the employee count):
put everyone off and let every shortage equal its demand. -/
theorem mySchedulerFeasible (nE nS nD : Nat) (requests : List (Nat × Nat × Nat × Int))
    (demand : Nat → Nat → Nat) (h : 1 ≤ nS) :
    ∃ W shortage totals sumTotals tmp dev,
      mySchedulerSystem nE nS nD requests demand W shortage totals sumTotals tmp dev := by
  refine ⟨offOnlyAssign, fun s d => demand s d,
    fun _ => if nS - 1 = 0 then nD else 0,
    nE * (if nS - 1 = 0 then nD else 0),
    fun _ => 0, fun _ => 0, ?_, ?_, ?_, ?_, ?_, ?_, ?_, ?_⟩
  · intro e _ d _
    obtain ⟨m, rfl⟩ : ∃ m, nS = m + 1 := ⟨nS - 1, by omega⟩
    exact offOnly_exactlyOne m e d
  · intro t ht
    simp at ht
  · intro e _ d _ s hs1 _ _
    show decide (s = 0) = false
    simp
    omega
  · intro s hs1 _ d _
    refine ⟨le_refl _, ?_⟩
    rw [offOnly_countWorked nE s d hs1]
    simp
  · intro e _
    refine ⟨?_, (offOnly_countShift nS nD e).symm⟩
    beta_reduce
    split <;> omega
  · have hle : (if nS - 1 = 0 then nD else 0) ≤ nD := by split <;> omega
    exact Nat.mul_le_mul_left nE hle
  · rw [sumTotalsOf_const]
  · intro e _
    refine ⟨?_, ?_, ?_, le_refl 0, ?_, ?_⟩
    · beta_reduce
      have h0 : (0 : Int) ≤ (nE : Int) * (nD : Int) := by positivity
      omega
    · beta_reduce
      have h0 : (0 : Int) ≤ (nE : Int) * (nD : Int) := by positivity
      omega
    · beta_reduce
      push_cast
      ring
    · beta_reduce
      have h0 : (0 : Int) ≤ (nE : Int) * (nD : Int) := by positivity
      omega
    · simp

/-- C4: coverage accounting in `my_scheduler`.  For every working
shift-type and day, the shortage variable is bounded in `[0, demand]` and
satisfies `assigned_count + shortage == demand` exactly (so the assigned
count never exceeds demand and the shortage is exactly the deficit); the
shortage costs enter the objective linearly at the shortage-penalty rate;
and the constraint system remains satisfiable for arbitrary demand, in
particular demand exceeding the employee count never makes the model
infeasible. -/
theorem c4_coverage_accounting :
    (∀ (W : WorkAssign) (shortage : Nat → Nat → Nat) (nE nS nD : Nat)
        (demand : Nat → Nat → Nat),
      coverageConsMySched W shortage nE nS nD demand →
      ∀ s, 1 ≤ s → s < nS → ∀ d < nD,
        shortage s d ≤ demand s d
        ∧ countWorked W nE s d ≤ demand s d
        ∧ shortage s d = demand s d - countWorked W nE s d)
    ∧ (∀ (shortage : Nat → Nat → Nat) (nS nD : Nat),
        intTermsSum (coverageObjTerms shortage nS nD)
          = shortage_penalty * totalShortage shortage nS nD)
    ∧ (∀ (nE nS nD : Nat) (requests : List (Nat × Nat × Nat × Int))
        (demand : Nat → Nat → Nat), 1 ≤ nS →
        ∃ W shortage totals sumTotals tmp dev,
          mySchedulerSystem nE nS nD requests demand W shortage totals sumTotals tmp dev) := by
  refine ⟨?_, ?_, ?_⟩
  · intro W shortage nE nS nD demand hcons s hs1 hs2 d hd
    obtain ⟨h1, h2⟩ := hcons s hs1 hs2 d hd
    exact ⟨h1, by omega, by omega⟩
  · intro shortage nS nD
    unfold coverageObjTerms totalShortage
    exact intTermsSum_flatMap_const shortage_penalty shortage (List.range' 1 (nS - 1))
      (List.range nD)
  · intro nE nS nD requests demand h
    exact mySchedulerFeasible nE nS nD requests demand h

/-- Demand function asking for five workers everywhere (more than the
one employee of the witness instance). -/
def demandFive : Nat → Nat → Nat := fun _ _ => 5

/-- Witness for C4 at concrete data: one employee, two shift-types, one
day, demand five (exceeding the employee count), everyone off. -/
theorem c4_witness :
    coverageConsMySched offOnlyAssign demandFive 1 2 1 demandFive
    ∧ (∀ s, 1 ≤ s → s < 2 → ∀ d < 1,
        demandFive s d ≤ demandFive s d
        ∧ countWorked offOnlyAssign 1 s d ≤ demandFive s d
        ∧ demandFive s d = demandFive s d - countWorked offOnlyAssign 1 s d)
    ∧ intTermsSum (coverageObjTerms demandFive 3 2)
        = shortage_penalty * totalShortage demandFive 3 2
    ∧ (1 : Nat) ≤ 2
    ∧ (∃ W shortage totals sumTotals tmp dev,
        mySchedulerSystem 1 2 1 [] demandFive W shortage totals sumTotals tmp dev) := by
  have hcov : coverageConsMySched offOnlyAssign demandFive 1 2 1 demandFive := by
    intro s hs1 hs2 d hd
    have hseq : s = 1 := by omega
    have hdeq : d = 0 := by omega
    subst hseq; subst hdeq
    decide
  refine ⟨hcov, ?_, ?_, by decide, ?_⟩
  · exact c4_coverage_accounting.1 offOnlyAssign demandFive 1 2 1 demandFive hcov
  · exact c4_coverage_accounting.2.1 demandFive 3 2
  · exact c4_coverage_accounting.2.2 1 2 1 [] demandFive (by decide)

/-- C6 counterexample: at solver status Infeasible the function returns
the empty schedule `{}` — not a distinct explicit failure — and the very
same value is returned by a successful solve over zero employees, so the
failure return is not distinct from a success return. -/
theorem c6_counterexample :
    solveResult 2 2 14 ⟨CpStatus.infeasible, allFalseAssign⟩ = []
    ∧ solveResult 0 2 14 ⟨CpStatus.optimal, allFalseAssign⟩ = [] := by
  constructor <;> rfl

/-- C6 (amended): when the solver status is neither Optimal nor Feasible,
`solve_shift_scheduling_from_data` returns the empty mapping — never a
partial or fabricated schedule — but the failure is signalled only by
that emptiness, not by a distinct explicit failure value. -/
theorem c6_amended_empty_on_failure (nE nS nDays : Nat) (o : SolveOutcome)
    (h1 : o.status ≠ CpStatus.optimal) (h2 : o.status ≠ CpStatus.feasible) :
    solveResult nE nS nDays o = [] := by
  unfold solveResult
  rw [if_neg]
  rintro (h | h)
  · exact h1 h
  · exact h2 h

/-- Witness for C6 (amended) at a concrete Unknown outcome. -/
theorem c6_witness :
    (SolveOutcome.mk CpStatus.unknown allFalseAssign).status ≠ CpStatus.optimal
    ∧ (SolveOutcome.mk CpStatus.unknown allFalseAssign).status ≠ CpStatus.feasible
    ∧ solveResult 3 2 7 ⟨CpStatus.unknown, allFalseAssign⟩ = [] :=
  ⟨by decide, by decide,
    c6_amended_empty_on_failure 3 2 7 ⟨CpStatus.unknown, allFalseAssign⟩
      (by decide) (by decide)⟩

/-- C7: transition penalties.  With cost 0 the posted clause makes the
from/to pair on adjacent days infeasible; with positive cost the posted
clause forces the indicator true whenever the pair occurs, the pair
itself stays feasible (the clause is satisfiable with the indicator set,
whatever the assignment), the indicator costs nothing when false and
contributes exactly its cost to the objective through the appended term,
and cost 0 appends no objective term. -/
theorem c7_transition_penalties (cost : Int) (W : WorkAssign) (tv : Bool) (e p q d : Nat) :
    (cost = 0 → transitionCons cost W e p q d tv →
      ¬(W e p d = true ∧ W e q (d + 1) = true))
    ∧ (0 < cost → transitionCons cost W e p q d tv →
      (W e p d = true ∧ W e q (d + 1) = true) → tv = true)
    ∧ (0 < cost → ¬(W e p d = true ∧ W e q (d + 1) = true) →
      transitionCons cost W e p q d false)
    ∧ (0 < cost → transitionCons cost W e p q d true)
    ∧ (0 < cost → boolTermsSum (transitionObjTerms cost tv) = if tv then cost else 0)
    ∧ (cost = 0 → transitionObjTerms cost tv = []) := by
  refine ⟨?_, ?_, ?_, ?_, ?_, ?_⟩
  · intro hc hcons hpair
    unfold transitionCons at hcons
    rw [if_pos hc] at hcons
    rcases hcons with h | h
    · rw [hpair.1] at h; exact absurd h (by simp)
    · rw [hpair.2] at h; exact absurd h (by simp)
  · intro hc hcons hpair
    unfold transitionCons at hcons
    rw [if_neg (by omega : ¬cost = 0)] at hcons
    rcases hcons with h | h | h
    · rw [hpair.1] at h; exact absurd h (by simp)
    · rw [hpair.2] at h; exact absurd h (by simp)
    · exact h
  · intro hc hnot
    unfold transitionCons
    rw [if_neg (by omega : ¬cost = 0)]
    unfold transitionClauseSoft
    rcases Bool.eq_false_or_eq_true (W e p d) with h | h
    · rcases Bool.eq_false_or_eq_true (W e q (d + 1)) with h2 | h2
      · exact absurd ⟨h, h2⟩ hnot
      · exact Or.inr (Or.inl h2)
    · exact Or.inl h
  · intro hc
    unfold transitionCons
    rw [if_neg (by omega : ¬cost = 0)]
    exact Or.inr (Or.inr rfl)
  · intro hc
    unfold transitionObjTerms
    rw [if_neg (by omega : ¬cost = 0)]
    simp [boolTermsSum]
  · intro hc
    unfold transitionObjTerms
    rw [if_pos hc]

/-- Concrete assignment that is everywhere true. -/
def allTrueAssign : WorkAssign := fun _ _ _ => true

/-- Witness for C7 at concrete data: cost 3 (soft) and cost 0 (hard). -/
theorem c7_witness :
    (0 : Int) < 3
    ∧ transitionCons 3 allTrueAssign 0 0 0 0 true
    ∧ transitionCons 3 allFalseAssign 0 0 0 0 false
    ∧ boolTermsSum (transitionObjTerms 3 true) = (if true then (3 : Int) else 0)
    ∧ transitionObjTerms 0 true = []
    ∧ ¬(allFalseAssign 0 0 0 = true ∧ allFalseAssign 0 0 1 = true) :=
  ⟨by decide,
    (c7_transition_penalties 3 allTrueAssign true 0 0 0 0).2.2.2.1 (by decide),
    (c7_transition_penalties 3 allFalseAssign false 0 0 0 0).2.2.1 (by decide)
      (by decide),
    (c7_transition_penalties 3 allTrueAssign true 0 0 0 0).2.2.2.2.1 (by decide),
    (c7_transition_penalties 0 allTrueAssign true 0 0 0 0).2.2.2.2.2 rfl,
    (c7_transition_penalties 0 allFalseAssign true 0 0 0 0).1 rfl
      (by unfold transitionCons; rw [if_pos rfl]; exact Or.inl rfl)⟩

/-- Unsatisfiability of the cover constraints when some cell's demand
exceeds the number of employees: the `worked` variable would need to be
at least the demand yet at most `num_employees`. -/
theorem weeklyCover_unsat_of_demand_gt (nE nWeeks nS : Nat) (demands : Nat → Nat → Nat)
    (s w d : Nat) (hs : s < nS) (hw : w < nWeeks) (hd : d < 7) (hgt : nE < demands d s)
    (W : WorkAssign) : ¬ ∃ worked, weeklyCoverCons nE nWeeks nS demands W worked := by
  rintro ⟨worked, hcons⟩
  obtain ⟨h1, h2, -⟩ := hcons s hs w hw d hd (by omega)
  omega

/-- C10: coverage demand in `solve_shift_scheduling_from_data` is a hard
staffing floor: any assignment satisfying the posted cover constraints
staffs every demanded cell with at least its demand; if some cell's
demand exceeds the employee count the cover constraints are
unsatisfiable, and then every sound solve returns the empty mapping. -/
theorem c10_cover_hard_floor :
    (∀ (nE nWeeks nS : Nat) (demands : Nat → Nat → Nat) (W : WorkAssign)
        (worked : Nat → Nat → Nat → Nat),
      weeklyCoverCons nE nWeeks nS demands W worked →
      ∀ s < nS, ∀ w < nWeeks, ∀ d < 7, demands d s ≠ 0 →
        demands d s ≤ countWorked W nE s (w * 7 + d))
    ∧ (∀ (nE nWeeks nS : Nat) (demands : Nat → Nat → Nat) (s w d : Nat),
        s < nS → w < nWeeks → d < 7 → nE < demands d s →
        ∀ W : WorkAssign, ¬ ∃ worked, weeklyCoverCons nE nWeeks nS demands W worked)
    ∧ (∀ (nE nWeeks nS : Nat) (demands : Nat → Nat → Nat) (s w d : Nat)
        (o : SolveOutcome),
        s < nS → w < nWeeks → d < 7 → nE < demands d s →
        OracleSound o (fun W => ∃ worked, weeklyCoverCons nE nWeeks nS demands W worked) →
        solveResult nE nS (nWeeks * 7) o = []) := by
  refine ⟨?_, ?_, ?_⟩
  · intro nE nWeeks nS demands W worked hcons s hs w hw d hd hne
    obtain ⟨h1, -, h3⟩ := hcons s hs w hw d hd hne
    rw [← h3]
    exact h1
  · intro nE nWeeks nS demands s w d hs hw hd hgt W
    exact weeklyCover_unsat_of_demand_gt nE nWeeks nS demands s w d hs hw hd hgt W
  · intro nE nWeeks nS demands s w d o hs hw hd hgt hSound
    unfold solveResult
    rw [if_neg]
    intro hsucc
    exact weeklyCover_unsat_of_demand_gt nE nWeeks nS demands s w d hs hw hd hgt o.W
      (hSound hsucc)

/-- Demand table asking for two workers on weekday 0, shift 1, and
nothing elsewhere. -/
def demandTwoCell : Nat → Nat → Nat := fun d s => if d = 0 ∧ s = 1 then 2 else 0

/-- Witness for C10 at concrete data: one employee, demand two, an
infeasible outcome from a (vacuously sound) solver. -/
theorem c10_witness :
    (1 : Nat) < demandTwoCell 0 1
    ∧ OracleSound ⟨CpStatus.infeasible, allFalseAssign⟩
        (fun W => ∃ worked, weeklyCoverCons 1 1 2 demandTwoCell W worked)
    ∧ (∀ W : WorkAssign, ¬ ∃ worked, weeklyCoverCons 1 1 2 demandTwoCell W worked)
    ∧ solveResult 1 2 7 ⟨CpStatus.infeasible, allFalseAssign⟩ = [] := by
  have hSound : OracleSound ⟨CpStatus.infeasible, allFalseAssign⟩
      (fun W => ∃ worked, weeklyCoverCons 1 1 2 demandTwoCell W worked) := by
    rintro (h | h) <;> simp at h
  refine ⟨by decide, hSound, ?_, ?_⟩
  · exact c10_cover_hard_floor.2.1 1 1 2 demandTwoCell 1 0 0 (by decide) (by decide)
      (by decide) (by decide)
  · exact c10_cover_hard_floor.2.2 1 1 2 demandTwoCell 1 0 0
      ⟨CpStatus.infeasible, allFalseAssign⟩ (by decide) (by decide) (by decide)
      (by decide) hSound

/-- C2 (code divergence): the value returned by `my_scheduler`, and hence
by `run_scheduler_for_company`, is the solver statistics text for every
solve, never a dict mapping employee ids to per-day assignments — the
shape its own docstring promises. -/
theorem c2_returns_stats_not_schedule (statsText : String) :
    my_scheduler_return statsText = PyReturn.statsText statsText
    ∧ run_scheduler_for_company statsText = PyReturn.statsText statsText
    ∧ ∀ m, my_scheduler_return statsText ≠ PyReturn.scheduleDict m
    ∧ ∀ m, run_scheduler_for_company statsText ≠ PyReturn.scheduleDict m := by
  refine ⟨rfl, rfl, ?_⟩
  intro m
  exact ⟨fun h => PyReturn.noConfusion h, fun m2 h => PyReturn.noConfusion h⟩

/-- C5 (code divergence): the call site passes a different number of
positional arguments than `add_soft_sequence_constraint` declares, and
the constraints the defined function posts are soft, not hard: a window
of three consecutive assignments with `max_length = 2` is satisfiable
(with the violation indicator true and the penalty variable charged), so
a maximal run longer than the bound is not infeasible; likewise a run of
length 1 is satisfiable at zero penalty, so no lower hard bound exists. -/
theorem c5_soft_sequence_not_hard :
    addSoftSequenceConstraint_callArgCount ≠ addSoftSequenceConstraint_paramCount
    ∧ softSeqCons [true, true, true] 2 5 (fun _ => true) 5
    ∧ maxRun [true, true, true] = 3
    ∧ 2 < maxRun [true, true, true]
    ∧ softSeqCons [true, false, false] 2 5 (fun _ => false) 0
    ∧ maxRun [true, false, false] = 1 := by
  refine ⟨by decide, by decide, by decide, by decide, by decide, by decide⟩

/-- C8 counterexample: the out-of-range fixed tuple `(5, 0, 0)` (employee
5 of 1) generates no constraint at all (silently skipped, no error), the
out-of-range request `(0, 5, 0, 3)` likewise contributes nothing, and the
conflicting fixes `(0, 0, 0)` and `(0, 1, 0)` are not rejected during
construction: both constraints are posted and the resulting model is
infeasible. -/
theorem c8_counterexample :
    fixedTriplesUsed 1 2 7 [(5, 0, 0)] = []
    ∧ requestTermsUsed 1 2 7 [(0, 5, 0, (3 : Int))] = []
    ∧ ¬ ∃ W : WorkAssign, (∀ e < 1, ∀ d < 7, exactlyOneCons W 2 e d)
        ∧ fixedConsFiltered 1 2 7 [(0, 0, 0), (0, 1, 0)] W := by
  refine ⟨by decide, by decide, ?_⟩
  rintro ⟨W, hone, hfix⟩
  have h0 : W 0 0 0 = true := hfix (0, 0, 0) (by decide)
  have h1 : W 0 1 0 = true := hfix (0, 1, 0) (by decide)
  obtain ⟨s0, -, -, huniq⟩ := exactlyOne_unique (hone 0 (by decide) 0 (by decide))
  have e0 : 0 = s0 := huniq 0 (by decide) h0
  have e1 : 1 = s0 := huniq 1 (by decide) h1
  omega

/-- C8 (amended): out-of-range indices in fixed-assignment or request
tuples are silently dropped during model construction (no constraint or
objective term, no error); conflicting fixed assignments are not detected
during construction — both equalities are posted, the model becomes
infeasible, the solve is still attempted, and a sound solve then returns
the empty schedule rather than a configuration error. -/
theorem c8_no_configuration_error :
    (∀ (nE nS nDays : Nat) (fixed : List (Nat × Nat × Nat)) (t : Nat × Nat × Nat),
      ¬(t.1 < nE ∧ t.2.1 < nS ∧ t.2.2 < nDays) → t ∉ fixedTriplesUsed nE nS nDays fixed)
    ∧ (∀ (nE nS nDays : Nat) (requests : List (Nat × Nat × Nat × Int))
        (t : Nat × Nat × Nat × Int),
      ¬(t.1 < nE ∧ t.2.1 < nS ∧ t.2.2.1 < nDays) → t ∉ requestTermsUsed nE nS nDays requests)
    ∧ (∀ (nE nS nDays : Nat) (fixed : List (Nat × Nat × Nat)) (e s1 s2 d : Nat),
        s1 ≠ s2 → e < nE → s1 < nS → s2 < nS → d < nDays →
        (e, s1, d) ∈ fixed → (e, s2, d) ∈ fixed →
        ¬ ∃ W : WorkAssign, (∀ e0 < nE, ∀ d0 < nDays, exactlyOneCons W nS e0 d0)
          ∧ fixedConsFiltered nE nS nDays fixed W)
    ∧ (∀ (nE nS nDays : Nat) (fixed : List (Nat × Nat × Nat)) (e s1 s2 d : Nat)
        (o : SolveOutcome),
        s1 ≠ s2 → e < nE → s1 < nS → s2 < nS → d < nDays →
        (e, s1, d) ∈ fixed → (e, s2, d) ∈ fixed →
        OracleSound o (fun W => (∀ e0 < nE, ∀ d0 < nDays, exactlyOneCons W nS e0 d0)
          ∧ fixedConsFiltered nE nS nDays fixed W) →
        solveResult nE nS nDays o = []) := by
  have hconflict : ∀ (nE nS nDays : Nat) (fixed : List (Nat × Nat × Nat)) (e s1 s2 d : Nat),
      s1 ≠ s2 → e < nE → s1 < nS → s2 < nS → d < nDays →
      (e, s1, d) ∈ fixed → (e, s2, d) ∈ fixed →
      ¬ ∃ W : WorkAssign, (∀ e0 < nE, ∀ d0 < nDays, exactlyOneCons W nS e0 d0)
        ∧ fixedConsFiltered nE nS nDays fixed W := by
    intro nE nS nDays fixed e s1 s2 d hne he hs1 hs2 hd hm1 hm2
    rintro ⟨W, hone, hfix⟩
    have hu1 : (e, s1, d) ∈ fixedTriplesUsed nE nS nDays fixed := by
      unfold fixedTriplesUsed
      rw [List.mem_filter]
      refine ⟨hm1, ?_⟩
      simp only [Bool.and_eq_true, decide_eq_true_eq]
      exact ⟨⟨he, hs1⟩, hd⟩
    have hu2 : (e, s2, d) ∈ fixedTriplesUsed nE nS nDays fixed := by
      unfold fixedTriplesUsed
      rw [List.mem_filter]
      refine ⟨hm2, ?_⟩
      simp only [Bool.and_eq_true, decide_eq_true_eq]
      exact ⟨⟨he, hs2⟩, hd⟩
    have h1 : W e s1 d = true := hfix (e, s1, d) hu1
    have h2 : W e s2 d = true := hfix (e, s2, d) hu2
    obtain ⟨s0, -, -, huniq⟩ := exactlyOne_unique (hone e he d hd)
    exact hne ((huniq s1 hs1 h1).trans (huniq s2 hs2 h2).symm)
  refine ⟨?_, ?_, hconflict, ?_⟩
  · intro nE nS nDays fixed t hout hmem
    unfold fixedTriplesUsed at hmem
    rw [List.mem_filter] at hmem
    have := hmem.2
    simp only [Bool.and_eq_true, decide_eq_true_eq] at this
    exact hout ⟨this.1.1, this.1.2, this.2⟩
  · intro nE nS nDays requests t hout hmem
    unfold requestTermsUsed at hmem
    rw [List.mem_filter] at hmem
    have := hmem.2
    simp only [Bool.and_eq_true, decide_eq_true_eq] at this
    exact hout ⟨this.1.1, this.1.2, this.2⟩
  · intro nE nS nDays fixed e s1 s2 d o hne he hs1 hs2 hd hm1 hm2 hSound
    unfold solveResult
    rw [if_neg]
    intro hsucc
    exact hconflict nE nS nDays fixed e s1 s2 d hne he hs1 hs2 hd hm1 hm2
      ⟨o.W, hSound hsucc⟩

/-- Witness for C8 (amended) at concrete data: one employee, two
shift-types, seven days, the conflicting fixes of the counterexample and
an out-of-range tuple, with a vacuously sound infeasible outcome. -/
theorem c8_witness :
    ¬((5 : Nat) < 1 ∧ (0 : Nat) < 2 ∧ (0 : Nat) < 7)
    ∧ (5, 0, 0) ∉ fixedTriplesUsed 1 2 7 [(5, 0, 0)]
    ∧ (0, 5, 0, (3 : Int)) ∉ requestTermsUsed 1 2 7 [(0, 5, 0, (3 : Int))]
    ∧ (¬ ∃ W : WorkAssign, (∀ e0 < 1, ∀ d0 < 7, exactlyOneCons W 2 e0 d0)
        ∧ fixedConsFiltered 1 2 7 [(0, 0, 0), (0, 1, 0)] W)
    ∧ solveResult 1 2 7 ⟨CpStatus.infeasible, allFalseAssign⟩ = [] := by
  have hSound : OracleSound ⟨CpStatus.infeasible, allFalseAssign⟩
      (fun W => (∀ e0 < 1, ∀ d0 < 7, exactlyOneCons W 2 e0 d0)
        ∧ fixedConsFiltered 1 2 7 [(0, 0, 0), (0, 1, 0)] W) := by
    rintro (h | h) <;> simp at h
  refine ⟨by decide, ?_, ?_, ?_, ?_⟩
  · exact c8_no_configuration_error.1 1 2 7 [(5, 0, 0)] (5, 0, 0) (by decide)
  · exact c8_no_configuration_error.2.1 1 2 7 [(0, 5, 0, (3 : Int))]
      (0, 5, 0, (3 : Int)) (by decide)
  · exact c8_no_configuration_error.2.2.1 1 2 7 [(0, 0, 0), (0, 1, 0)] 0 0 1 0
      (by decide) (by decide) (by decide) (by decide) (by decide) (by decide) (by decide)
  · exact c8_no_configuration_error.2.2.2 1 2 7 [(0, 0, 0), (0, 1, 0)] 0 0 1 0
      ⟨CpStatus.infeasible, allFalseAssign⟩
      (by decide) (by decide) (by decide) (by decide) (by decide) (by decide) (by decide)
      hSound

/-- Sum bound for lists of integers bounded above elementwise. -/
theorem list_sum_le_length_mul (M : Int) (l : List Int) (h : ∀ x ∈ l, x ≤ M) :
    l.sum ≤ (l.length : Int) * M := by
  induction l with
  | nil => simp
  | cons a l ih =>
    simp only [List.sum_cons, List.length_cons]
    have ha := h a (by simp)
    have hl := ih (fun x hx => h x (by simp [hx]))
    push_cast
    ring_nf
    ring_nf at hl
    linarith

/-- Nonnegativity of sums of elementwise-nonnegative integer lists. -/
theorem list_sum_nonneg_int (l : List Int) (h : ∀ x ∈ l, 0 ≤ x) : 0 ≤ l.sum := by
  induction l with
  | nil => simp
  | cons a l ih =>
    simp only [List.sum_cons]
    have ha := h a (by simp)
    have hl := ih (fun x hx => h x (by simp [hx]))
    linarith

/-- Mapping a constant over a list yields a replicate. -/
theorem map_const_replicate {α β : Type} (b : β) (l : List α) :
    l.map (fun _ => b) = List.replicate l.length b := by
  induction l with
  | nil => rfl
  | cons a l ih => simp [ih, List.replicate_succ]

/-- Absolute scaled deviations pull the positive factor out of the sum. -/
theorem sum_abs_eq_q (n S : ℚ) (hn : n ≠ 0) (hpos : 0 ≤ n) (l : List Int) :
    (l.map (fun t : Int => |n * (t : ℚ) - S|)).sum
      = n * (l.map (fun t : Int => |(t : ℚ) - S / n|)).sum := by
  induction l with
  | nil => simp
  | cons a l ih =>
    simp only [List.map_cons, List.sum_cons, ih, mul_add]
    congr 1
    have hlin : n * ((a : ℚ) - S / n) = n * (a : ℚ) - S := by
      field_simp
      ring
    rw [← hlin, abs_mul, abs_of_nonneg hpos]

/-- Casting the integer deviation sum into the rationals pointwise. -/
theorem cast_devs_sum (l : List Int) (n S : Int) :
    (((l.map (fun t => |n * t - S|)).sum : Int) : ℚ)
      = (l.map (fun t : Int => |(n : ℚ) * (t : ℚ) - (S : ℚ)|)).sum := by
  induction l with
  | nil => simp
  | cons a l ih =>
    simp only [List.map_cons, List.sum_cons]
    rw [Int.cast_add, ih]
    congr 1
    push_cast
    ring

/-- C9: the fairness balancer.  Given bounded per-employee totals, every
deviation `|n * total_e - S|` introduced by `add_fair_share` lies within
`[0, n * max_total]` (with `max_total` the horizon length at the
`my_scheduler` call site), the objective coefficients are the uniform
fairness cost, and over the rationals the sum of deviations equals `n`
times the sum of absolute deviations of the totals from their arithmetic
mean `S / n`, so minimizing it is equivalent to minimizing absolute
deviation from the mean with all terms integral. -/
theorem c9_fair_share (totals : List Int) (maxTotal : Nat) (fairnessCost : Int)
    (hb : ∀ t ∈ totals, 0 ≤ t ∧ t ≤ (maxTotal : Int)) :
    (∀ v ∈ fairShareDevs totals, 0 ≤ v ∧ v ≤ (totals.length : Int) * maxTotal)
    ∧ fairShareCoeffs totals fairnessCost = List.replicate totals.length fairnessCost
    ∧ ((fairShareDevs totals).sum : ℚ)
        = (totals.length : ℚ)
          * (totals.map (fun t : Int =>
              |(t : ℚ) - (totals.sum : ℚ) / (totals.length : ℚ)|)).sum := by
  refine ⟨?_, ?_, ?_⟩
  · intro v hv
    unfold fairShareDevs at hv
    obtain ⟨t, ht, rfl⟩ := List.mem_map.mp hv
    refine ⟨abs_nonneg _, ?_⟩
    have hS_le : totals.sum ≤ (totals.length : Int) * maxTotal :=
      list_sum_le_length_mul (maxTotal : Int) totals (fun x hx => (hb x hx).2)
    have hS_nonneg : 0 ≤ totals.sum :=
      list_sum_nonneg_int totals (fun x hx => (hb x hx).1)
    have ht_nonneg : 0 ≤ t := (hb t ht).1
    have ht_le : t ≤ (maxTotal : Int) := (hb t ht).2
    have hlen_nonneg : (0 : Int) ≤ (totals.length : Int) := by positivity
    rw [abs_le]
    constructor
    · have h1 : 0 ≤ (totals.length : Int) * t := mul_nonneg hlen_nonneg ht_nonneg
      linarith
    · have h2 : (totals.length : Int) * t ≤ (totals.length : Int) * maxTotal :=
        mul_le_mul_of_nonneg_left ht_le hlen_nonneg
      linarith
  · exact map_const_replicate fairnessCost totals
  · by_cases h0 : totals.length = 0
    · have he : totals = [] := List.length_eq_zero.mp h0
      subst he
      simp [fairShareDevs]
    · have hnq : ((totals.length : ℚ)) ≠ 0 := Nat.cast_ne_zero.mpr h0
      have hpos : (0 : ℚ) ≤ (totals.length : ℚ) := by positivity
      unfold fairShareDevs
      rw [cast_devs_sum]
      simp only [Int.cast_natCast]
      exact sum_abs_eq_q (totals.length : ℚ) (totals.sum : ℚ) hnq hpos totals

/-- Witness for C9 at concrete totals `[1, 3]` with horizon bound 3 and
fairness cost 2. -/
theorem c9_witness :
    (∀ t ∈ ([1, 3] : List Int), 0 ≤ t ∧ t ≤ ((3 : Nat) : Int))
    ∧ ((∀ v ∈ fairShareDevs [1, 3],
          0 ≤ v ∧ v ≤ (([1, 3] : List Int).length : Int) * (3 : Nat))
      ∧ fairShareCoeffs [1, 3] 2 = List.replicate ([1, 3] : List Int).length 2
      ∧ ((fairShareDevs [1, 3]).sum : ℚ)
          = ((([1, 3] : List Int).length : ℚ))
            * (([1, 3] : List Int).map (fun t : Int =>
                |(t : ℚ) - (([1, 3] : List Int).sum : ℚ)
                  / (([1, 3] : List Int).length : ℚ)|)).sum) :=
  ⟨by decide, c9_fair_share [1, 3] 3 2 (by decide)⟩

end AutoShift
